import Mathlib

/-!
Verification of the staged-builder schema resolver and stage synthesizer
(crate internals in staged-builder-internals/src/lib.rs).

The development shallowly embeds two layers of the implementation:

* the resolution layer (`ResolvedField.new`, `resolve_fields`,
  `StructOverrides.new`, `expand`): attribute contents are modelled at the
  boundary the spec draws, i.e. as already-tokenized option lists (or a
  parse diagnostic), since the concrete annotation grammar is out of scope;
  diagnostics are abstract identifiers and a combined syn error is a list
  of diagnostics (syn's Error::combine appends);

* the semantics of the generated builder code (`stage`, `builder_impl`,
  `default_impl`, `final_stage_setter`, `validated_build`,
  `unvalidated_build`): a builder state maps absolute field indices to the
  optional value currently stored, and the generated setters are the state
  transformers the emitted code performs.
-/

namespace StagedBuilder

/-- A default-value initializer token stream: either the
`Default::default()` call that the macro itself inserts (the type's
empty/zero value) or a user-written expression, abstracted by an id. -/
inductive Expr where
  | defaultCall
  | userExpr (id : Nat)
deriving DecidableEq

/-- The setter parameter type token of a `FieldMode::Normal` field:
the declared field type, `impl Into` of it, or a custom user type token. -/
inductive SetterTy where
  | declared
  | intoTy
  | customT (t : Nat)
deriving DecidableEq

/-- The assignment expression of a `FieldMode::Normal` setter: the bare
 parameter, `.into()` applied to it, or a custom conversion call. -/
inductive AssignE where
  | ident
  | intoAssign
  | customA (c : Nat)
deriving DecidableEq

/-- `CollectionParamConfig`: a collection item/key/value parameter type
token and an optional conversion function token. -/
structure ParamCfg where
  type_ : Nat
  convert_fn : Option Nat
deriving DecidableEq

/-- `UnaryKind`: list-style or set-style collection. -/
inductive UnaryKind where
  | list
  | set
deriving DecidableEq

/-- `FieldMode`: how a field's setters are typed and assign their value. -/
inductive FieldMode where
  | normal (type_ : SetterTy) (assign : AssignE)
  | unaryCollection (kind : UnaryKind) (item : ParamCfg)
  | map (key value : ParamCfg)
deriving DecidableEq

/-- `FieldOverride`: one parsed option of a field's builder attribute. -/
inductive FieldOverride where
  | default (initializer : Expr)
  | intoOv
  | custom (type_ : Nat) (convert : Nat)
  | unaryCollection (kind : UnaryKind) (item : ParamCfg)
  | map (key value : ParamCfg)
deriving DecidableEq

/-- An attribute on a field: either not a builder attribute (skipped by
the resolver), or a builder attribute whose argument parse produced a
list of overrides or a parse error (a list of diagnostic ids). -/
inductive Attr where
  | other
  | builder (parsed : Except (List Nat) (List FieldOverride))

/-- A raw named field handed to the resolver. -/
structure RawField where
  name : String
  attrs : List Attr

/-- `ResolvedField`: the canonical descriptor `ResolvedField::new`
produces (the borrowed syn field is reduced to its name). -/
structure ResolvedField where
  name : String
  default : Option Expr
  mode : FieldMode
deriving DecidableEq

/-- The initial resolved state of a field before any override is applied:
no default, normal mode taking the declared type with identity assign. -/
def initResolved (f : RawField) : ResolvedField :=
  { name := f.name, default := none, mode := .normal .declared .ident }

/-- One iteration of the `for override_ in overrides` loop in
`ResolvedField::new`: each arm overwrites the current resolved state. -/
def applyOverride (r : ResolvedField) (o : FieldOverride) : ResolvedField :=
  match o with
  | .default init => { r with default := some init }
  | .intoOv => { r with mode := .normal .intoTy .intoAssign }
  | .custom t c => { r with mode := .normal (.customT t) (.customA c) }
  | .unaryCollection k item =>
      { r with default := some .defaultCall, mode := .unaryCollection k item }
  | .map k v =>
      { r with default := some .defaultCall, mode := .map k v }

/-- The `for attr in &field.attrs` loop of `ResolvedField::new`:
non-builder attributes are skipped, a failing argument parse aborts the
field with that error (the `?` operator), a successful parse folds its
overrides into the resolved state. -/
def resolveAttrs : List Attr → ResolvedField → Except (List Nat) ResolvedField
  | [], r => .ok r
  | .other :: rest, r => resolveAttrs rest r
  | .builder (.error e) :: _, _ => .error e
  | .builder (.ok ovs) :: rest, r => resolveAttrs rest (ovs.foldl applyOverride r)

/-- `ResolvedField::new`. -/
def ResolvedField.new (f : RawField) : Except (List Nat) ResolvedField :=
  resolveAttrs f.attrs (initResolved f)

/-- The loop body of `resolve_fields`: successful fields are pushed, an
erroring field's diagnostics are combined (appended) into the running
error, and iteration continues with the remaining fields. -/
def resolveFieldsGo :
    List RawField → List ResolvedField → Option (List Nat) →
    Except (List Nat) (List ResolvedField)
  | [], acc, err =>
      match err with
      | some e => .error e
      | none => .ok acc
  | f :: rest, acc, err =>
      match ResolvedField.new f with
      | .ok r => resolveFieldsGo rest (acc ++ [r]) err
      | .error e =>
          resolveFieldsGo rest acc
            (some (match err with
                   | some e0 => e0 ++ e
                   | none => e))

/-- `resolve_fields`. -/
def resolve_fields (fields : List RawField) : Except (List Nat) (List ResolvedField) :=
  resolveFieldsGo fields [] none

/-- The diagnostics a single field contributes ([] when it resolves). -/
def fieldErrors (f : RawField) : List Nat :=
  match ResolvedField.new f with
  | .ok _ => []
  | .error e => e

/-- `StructOverride`: the only struct-level option this version parses. -/
inductive StructOverride where
  | validate

/-- A struct-level attribute, analogous to `Attr`. -/
inductive SAttr where
  | other
  | builder (parsed : Except (List Nat) (List StructOverride))

/-- `StructOverrides`. -/
structure StructOverrides where
  validate : Bool
deriving DecidableEq

/-- The loop of `StructOverrides::new`: a failing parse of any builder
attribute aborts (the `?` operator); otherwise each `validate` override
sets the flag. -/
def structOverridesGo : List SAttr → StructOverrides → Except (List Nat) StructOverrides
  | [], o => .ok o
  | .other :: rest, o => structOverridesGo rest o
  | .builder (.error e) :: _, _ => .error e
  | .builder (.ok ovs) :: rest, o =>
      structOverridesGo rest
        (ovs.foldl (fun o ov => match ov with | .validate => { o with validate := true }) o)

/-- `StructOverrides::new`. -/
def StructOverrides.new (attrs : List SAttr) : Except (List Nat) StructOverrides :=
  structOverridesGo attrs { validate := false }

/-- The error-handling skeleton of `expand`: struct overrides are
resolved first (line 236), then the fields (line 237); either error
propagates as the whole result. -/
def expand (attrs : List SAttr) (fields : List RawField) :
    Except (List Nat) (StructOverrides × List ResolvedField) :=
  match StructOverrides.new attrs with
  | .error e => .error e
  | .ok o =>
      match resolve_fields fields with
      | .error e => .error e
      | .ok fs => .ok (o, fs)

/-- Whether an attribute parses without error. -/
def attrOk : Attr → Bool
  | .other => true
  | .builder (.ok _) => true
  | .builder (.error _) => false

/-- The concatenation of all successfully parsed builder-attribute
override lists of a field, in attribute order. -/
def allOverrides : List Attr → List FieldOverride
  | [] => []
  | .other :: rest => allOverrides rest
  | .builder (.ok l) :: rest => l ++ allOverrides rest
  | .builder (.error _) :: rest => allOverrides rest

/-- Whether an override changes the field's setter mode (every override
except `default` does). -/
def isModeOverride : FieldOverride → Bool
  | .default _ => false
  | _ => true

/-- The mode an override installs when applied (irrelevant for
`default`, which leaves the mode unchanged). -/
def modeOfOverride : FieldOverride → FieldMode
  | .intoOv => .normal .intoTy .intoAssign
  | .custom t c => .normal (.customT t) (.customA c)
  | .unaryCollection k i => .unaryCollection k i
  | .map k v => .map k v
  | .default _ => .normal .declared .ident

/-- The default an override installs, if any: an explicit `default`
installs its initializer, a collection override installs the
`Default::default()` empty-collection call. -/
def defaultEffect : FieldOverride → Option Expr
  | .default i => some i
  | .unaryCollection _ _ => some .defaultCall
  | .map _ _ => some .defaultCall
  | _ => none

/-- Whether an override is one of the collection options. -/
def isCollectionOverride : FieldOverride → Bool
  | .unaryCollection _ _ => true
  | .map _ _ => true
  | _ => false

/-!
Structural staging layer: in `expand` the stage structs are generated by
`fields.iter().enumerate().filter(|(_, f)| f.default.is_none())`
(lines 248-252), and each stage struct for absolute index `idx` holds
`fields[..idx].iter().filter(|f| f.default.is_none())` (lines 352-355).
`stagesOf` is kept polymorphic in the field representation since the
generation depends only on `default.is_none()`.
-/

/-- The enumerated required fields that become builder stages, in
declaration order, keyed by absolute declaration index. -/
def stagesOf {α : Type} (isReq : α → Bool) (fields : List α) : List (Nat × α) :=
  fields.enum.filter fun p => isReq p.2

/-- Whether a resolved field is required (has no resolved default). -/
def requiredField (f : ResolvedField) : Bool :=
  f.default.isNone

/-- The fields stored in the stage struct generated for absolute field
index `idx`: the required fields declared strictly before it. -/
def stage_struct_fields (fields : List ResolvedField) (idx : Nat) : List ResolvedField :=
  (fields.take idx).filter requiredField

/-!
Semantic layer: the meaning of the code the macro emits for one schema.
A schema is a list of `SField`s, one per declared field in declaration
order; `default` is the evaluated default initializer (present iff the
resolved field had one) and `conv` is the evaluated setter assignment
(identity, `Into::into`, or the custom conversion). A builder state maps
an absolute field index to the value the current stage struct stores for
it, `none` when the struct has no such member.
-/

/-- The semantic descriptor of one declared field. -/
structure SField (Val : Type) where
  default : Option Val
  conv : Val → Val

/-- A builder state: the contents of the current stage struct. -/
def BState (Val : Type) : Type := Nat → Option Val

/-- Whether the field at absolute index `j` is required. -/
def isRequiredAt {Val : Type} (fields : List (SField Val)) (j : Nat) : Bool :=
  match fields.get? j with
  | some f => f.default.isNone
  | none => false

/-- `fields[idx + 1..].iter().find(|f| f.default.is_none())` of `stage`:
the absolute index of the next required field after `idx`, if any. -/
def nextRequiredAfter {Val : Type} (fields : List (SField Val)) (idx : Nat) : Option Nat :=
  ((fields.drop (idx + 1)).findIdx? fun f => f.default.isNone).map (· + idx + 1)

/-- The default value of the field at index `j`, if it has one. -/
def defaultAt {Val : Type} (fields : List (SField Val)) (j : Nat) : Option Val :=
  (fields.get? j).bind fun f => f.default

/-- The setter assignment conversion of the field at index `j`. -/
def convAt {Val : Type} (fields : List (SField Val)) (j : Nat) (x : Val) : Val :=
  match fields.get? j with
  | some f => f.conv x
  | none => x

/-- The setter emitted by `stage` for the required field at absolute
index `idx`: the successor struct receives the already-assigned required
fields (those before `idx`), the converted new value at `idx`, and, when
no required field follows (the successor is the final stage), the
default initializers of every defaultable field. -/
def stage_setter {Val : Type} (fields : List (SField Val)) (idx : Nat) (x : Val)
    (s : BState Val) : BState Val := fun j =>
  if j = idx then some (convAt fields idx x)
  else if j < idx ∧ isRequiredAt fields j = true then s j
  else
    match nextRequiredAfter fields idx with
    | some _ => none
    | none => defaultAt fields j

/-- The initial builder state produced by `builder_impl` and
`default_impl`: the first required field's (empty) stage struct, or,
with no required field, the final stage struct with every defaultable
field initialized to its default. -/
def builder_init {Val : Type} (fields : List (SField Val)) : BState Val :=
  match fields.find? (fun f => f.default.isNone) with
  | some _ => fun _ => none
  | none => fun j => defaultAt fields j

/-- A `FieldMode::Normal` setter on the final stage
(`final_stage_setter`): overwrite one field, keep the rest. -/
def final_setter {Val : Type} (fields : List (SField Val)) (j : Nat) (x : Val)
    (s : BState Val) : BState Val := fun k =>
  if k = j then some (convAt fields j x) else s k

/-- A sequence of final-stage setter calls, each a target index and a
raw argument, applied left to right. -/
def applyFinalOps {Val : Type} (fields : List (SField Val)) (ops : List (Nat × Val))
    (s : BState Val) : BState Val :=
  ops.foldl (fun s p => final_setter fields p.1 p.2 s) s

/-- The struct literal both build methods emit: the final stage's
members, one per declared field. -/
def assembleValue {Val : Type} (n : Nat) (s : BState Val) : BState Val := fun j =>
  if j < n then s j else none

/-- `validated_build`: assemble the value, call `Validate::validate` on
it once, propagate its error, and otherwise return the value. -/
def validated_build {Val E : Type} (n : Nat) (validate : BState Val → Except E Unit)
    (s : BState Val) : Except E (BState Val) :=
  let value := assembleValue n s
  match validate value with
  | .ok _ => .ok value
  | .error e => .error e

/-- `unvalidated_build`: assemble and return the value; the method is
total (its result type is the struct itself, not a `Result`). -/
def unvalidated_build {Val : Type} (n : Nat) (s : BState Val) : BState Val :=
  assembleValue n s

/-- A call-logging wrapper around the validation contract: applying it
records the argument of that one call. -/
def logged {V E : Type} (validate : V → Except E Unit) (v : V) :
    Except E Unit × List V :=
  (validate v, [v])

/-- `validated_build` with its single contract invocation routed through
`logged`, so the second component lists every value the contract was
invoked on during the build. -/
def validated_build_traced {Val E : Type} (n : Nat)
    (validate : BState Val → Except E Unit) (s : BState Val) :
    Except E (BState Val) × List (BState Val) :=
  let value := assembleValue n s
  let r := logged validate value
  (match r.1 with
   | .ok _ => .ok value
   | .error e => .error e,
   r.2)

/-- Modelled from the spec: the `update` struct option and the
`From` conversion it generates (a built value reintroduced as a fresh
final-stage state) are exercised by the repository's tests but their
implementation is absent from the sources here (`StructOverride` parses
only `validate`); per spec section 4.5, the conversion reintroduces the
already-built value's fields as the final-stage struct's members. -/
def builder_from {Val : Type} (fields : List (SField Val)) (v : BState Val) : BState Val :=
  fun j => if j < fields.length then v j else none

/-!
Collection accumulator semantics (`final_stage_setter`, collection
arms). For a list-style field the underlying container is `Vec`; for a
set- or map-style field the underlying containers are `HashSet` and
`HashMap`, modelled as duplicate-free association structures over lists
in insertion order. `c` is the item conversion the setter applies
(identity when the parameter has no `convert_fn`).
-/

/-- `push_<name>` on a list-style field: `self.0.name.push(convert)`. -/
def push_setter {I B : Type} (c : I → B) (s : List B) (x : I) : List B :=
  s ++ [c x]

/-- `<name>` on a list-style field:
`self.0.name = FromIterator::from_iter(convert_iter)` — the previous
contents are discarded. -/
def name_setter_list {I B : Type} (c : I → B) (_s : List B) (xs : List I) : List B :=
  xs.map c

/-- `extend_<name>` on a list-style field:
`Extend::extend(&mut self.0.name, convert_iter)`. -/
def extend_setter_list {I B : Type} (c : I → B) (s : List B) (xs : List I) : List B :=
  s ++ xs.map c

/-- `HashSet::insert`: add the element unless already present. -/
def hset_insert {B : Type} [DecidableEq B] (s : List B) (x : B) : List B :=
  if x ∈ s then s else s ++ [x]

/-- `insert_<name>` on a set-style field. -/
def insert_setter {I B : Type} [DecidableEq B] (c : I → B) (s : List B) (x : I) : List B :=
  hset_insert s (c x)

/-- `<name>` on a set-style field: `from_iter` of the converted items,
discarding the previous contents. -/
def name_setter_set {I B : Type} [DecidableEq B] (c : I → B) (_s : List B)
    (xs : List I) : List B :=
  (xs.map c).foldl hset_insert []

/-- `extend_<name>` on a set-style field. -/
def extend_setter_set {I B : Type} [DecidableEq B] (c : I → B) (s : List B)
    (xs : List I) : List B :=
  (xs.map c).foldl hset_insert s

/-- `HashMap::insert`: replace any entry with the same key, add the new
entry. -/
def hmap_insert {K V : Type} [DecidableEq K] (m : List (K × V)) (k : K) (v : V) :
    List (K × V) :=
  (m.filter fun p => p.1 ≠ k) ++ [(k, v)]

/-- `insert_<name>` on a map-style field, with the key and value
conversions applied. -/
def insert_setter_map {KI K VI V : Type} [DecidableEq K] (ck : KI → K) (cv : VI → V)
    (m : List (K × V)) (p : KI × VI) : List (K × V) :=
  hmap_insert m (ck p.1) (cv p.2)

/-- `<name>` on a map-style field: `from_iter` of the converted entries,
discarding the previous contents. -/
def name_setter_map {KI K VI V : Type} [DecidableEq K] (ck : KI → K) (cv : VI → V)
    (_m : List (K × V)) (xs : List (KI × VI)) : List (K × V) :=
  (xs.map fun p => (ck p.1, cv p.2)).foldl (fun m q => hmap_insert m q.1 q.2) []

/-- `extend_<name>` on a map-style field. -/
def extend_setter_map {KI K VI V : Type} [DecidableEq K] (ck : KI → K) (cv : VI → V)
    (m : List (K × V)) (xs : List (KI × VI)) : List (K × V) :=
  (xs.map fun p => (ck p.1, cv p.2)).foldl (fun m q => hmap_insert m q.1 q.2) m

/-!
Concrete schemas used as witnesses and counterexamples: the crate's own
test structs (`Foo` for the basic scenario, `Validated` for the
validation scenario, `Update` for the update scenario) and small raw
fields exercising the resolver.
-/

/-- The value universe of the test struct with boolean, string and
integer fields. -/
inductive FooVal where
  | b (x : Bool)
  | s (x : String)
  | i (x : Int)
deriving DecidableEq

/-- The `Foo` test schema: `required: bool`, `required2: String` (into),
`normal_default: String` (default, into — the default is the empty
string), `custom_default: i32` (default 42). -/
def fooFields : List (SField FooVal) :=
  [⟨none, id⟩, ⟨none, id⟩, ⟨some (.s ""), id⟩, ⟨some (.i 42), id⟩]

/-- The `Validated` test schema: a single required field `even`. -/
def evenFields : List (SField Nat) := [⟨none, id⟩]

/-- The `Validate` implementation of the `Validated` test struct:
accept even values of the `even` field. -/
def validateEven (v : BState Nat) : Except String Unit :=
  match v 0 with
  | some k => if k % 2 = 0 then .ok () else .error "is odd"
  | none => .error "unset"

/-- The value universe of the `Update` test struct. -/
inductive UpdVal where
  | i (x : Int)
  | s (x : String)
deriving DecidableEq

/-- The `Update` test schema: required `a: i32` and `b: String`. -/
def updFields : List (SField UpdVal) := [⟨none, id⟩, ⟨none, id⟩]

/-- The built `Update` value with `a` set to 1 and `b` to hello. -/
def updOriginal : BState UpdVal := fun j =>
  if j = 0 then some (.i 1) else if j = 1 then some (.s "hello") else none

/-- A field combining the mutually exclusive `into` and `custom` modes. -/
def exIntoCustom : RawField :=
  ⟨"f", [.builder (.ok [.intoOv, .custom 1 2])]⟩

/-- A field combining the mutually exclusive `list` and `set` modes. -/
def exListSet : RawField :=
  ⟨"g", [.builder (.ok [.unaryCollection .list ⟨3, none⟩, .unaryCollection .set ⟨4, none⟩])]⟩

/-- A list-mode field with an explicit `default = <expr>` option after
the `list` option. -/
def exListDefault : RawField :=
  ⟨"h", [.builder (.ok [.unaryCollection .list ⟨5, none⟩, .default (.userExpr 7)])]⟩

/-- A field with only a `list` option. -/
def exListOnly : RawField :=
  ⟨"m", [.builder (.ok [.unaryCollection .list ⟨5, none⟩])]⟩

/-- A list-mode field with a bare `default` option (no expression, so
its initializer is the `Default::default()` call) after the `list`
option. -/
def exListBareDefault : RawField :=
  ⟨"n", [.builder (.ok [.unaryCollection .list ⟨5, none⟩, .default .defaultCall])]⟩

/-- A schema of three fields, each with a distinct malformed builder
attribute. -/
def threeBadFields : List RawField :=
  [⟨"a", [.builder (.error [1])]⟩,
   ⟨"b", [.builder (.error [2])]⟩,
   ⟨"c", [.builder (.error [3])]⟩]

/-- A resolved schema mixing required and defaultable fields. -/
def mixedResolved : List ResolvedField :=
  [⟨"a", none, .normal .declared .ident⟩,
   ⟨"b", some .defaultCall, .normal .declared .ident⟩,
   ⟨"c", none, .normal .intoTy .intoAssign⟩,
   ⟨"d", some (.userExpr 3), .normal .declared .ident⟩]

/-- The second required field of `mixedResolved`. -/
def mixedC : ResolvedField := ⟨"c", none, .normal .intoTy .intoAssign⟩

/-- The `Foo` scenario run: required(true), required2(a), build. -/
def fooBuilt : BState FooVal :=
  unvalidated_build fooFields.length
    (applyFinalOps fooFields []
      (stage_setter fooFields 1 (.s "a")
        (stage_setter fooFields 0 (.b true) (builder_init fooFields))))

/-!
Helper lemmas (shared; none is a claim theorem).
-/

theorem snd_mem_of_mem_enumFrom {α : Type} {p : Nat × α} :
    ∀ (l : List α) (n : Nat), p ∈ l.enumFrom n → p.2 ∈ l := by
  intro l
  induction l with
  | nil => intro n h; simp [List.enumFrom] at h
  | cons a l ih =>
      intro n h
      simp only [List.enumFrom, List.mem_cons] at h
      rcases h with h | h
      · subst h; simp
      · exact List.mem_cons_of_mem _ (ih (n + 1) h)

theorem map_snd_filter_enumFrom {α : Type} (P : α → Bool) :
    ∀ (l : List α) (n : Nat),
      ((l.enumFrom n).filter (fun p => P p.2)).map (fun p => p.2) = l.filter P := by
  intro l
  induction l with
  | nil => intro n; rfl
  | cons a l ih =>
      intro n
      by_cases h : P a
      · simp [List.enumFrom, List.filter, h, ih (n + 1)]
      · simp [List.enumFrom, List.filter, Bool.of_not_eq_true h, ih (n + 1)]

theorem get_filter_enumFrom_take {α : Type} (P : α → Bool) :
    ∀ (l : List α) (n k i : Nat) (f : α),
      ((l.enumFrom n).filter (fun p => P p.2)).get? k = some (i, f) →
      ∃ m, i = n + m ∧ (l.take m).filter P = (l.filter P).take k := by
  intro l
  induction l with
  | nil => intro n k i f h; simp [List.enumFrom] at h
  | cons a l ih =>
      intro n k i f h
      by_cases hP : P a
      · rw [show (((a :: l).enumFrom n).filter fun p => P p.2) =
              (n, a) :: ((l.enumFrom (n + 1)).filter fun p => P p.2) by
            simp [List.enumFrom, List.filter, hP]] at h
        cases k with
        | zero =>
            simp only [List.get?] at h
            refine ⟨0, ?_, ?_⟩
            · exact ((Prod.mk.injEq _ _ _ _).mp (Option.some.inj h)).1.symm
            · simp
        | succ k =>
            simp only [List.get?] at h
            obtain ⟨m, hm, ht⟩ := ih (n + 1) k i f h
            refine ⟨m + 1, by omega, ?_⟩
            simp [List.take, List.filter, hP, ht]
      · rw [show (((a :: l).enumFrom n).filter fun p => P p.2) =
              ((l.enumFrom (n + 1)).filter fun p => P p.2) by
            simp [List.enumFrom, List.filter, Bool.of_not_eq_true hP]] at h
        obtain ⟨m, hm, ht⟩ := ih (n + 1) k i f h
        refine ⟨m + 1, by omega, ?_⟩
        simp [List.take, List.filter, Bool.of_not_eq_true hP, ht]

theorem fieldErrors_of_ok {f : RawField} {r : ResolvedField}
    (h : ResolvedField.new f = .ok r) : fieldErrors f = [] := by
  simp [fieldErrors, h]

theorem fieldErrors_of_error {f : RawField} {e : List Nat}
    (h : ResolvedField.new f = .error e) : fieldErrors f = e := by
  simp [fieldErrors, h]

theorem resolveFieldsGo_some :
    ∀ (fields : List RawField) (acc : List ResolvedField) (e0 : List Nat),
      resolveFieldsGo fields acc (some e0) = .error (e0 ++ (fields.map fieldErrors).flatten) := by
  intro fields
  induction fields with
  | nil => intro acc e0; simp [resolveFieldsGo]
  | cons f rest ih =>
      intro acc e0
      cases h : ResolvedField.new f with
      | ok r =>
          simp [resolveFieldsGo, h, ih, fieldErrors_of_ok h]
      | error e =>
          simp [resolveFieldsGo, h, ih, fieldErrors_of_error h, List.append_assoc]

theorem resolveFieldsGo_none :
    ∀ (fields : List RawField) (acc : List ResolvedField),
      (fields.all fun f => (ResolvedField.new f).isOk) = false →
      resolveFieldsGo fields acc none = .error ((fields.map fieldErrors).flatten) := by
  intro fields
  induction fields with
  | nil => intro acc h; simp at h
  | cons f rest ih =>
      intro acc h
      cases hf : ResolvedField.new f with
      | ok r =>
          have hrest : (rest.all fun f => (ResolvedField.new f).isOk) = false := by
            simp only [List.all_cons, hf, Except.isOk, Except.toBool, Bool.true_and] at h
            exact h
          simp [resolveFieldsGo, hf, ih _ hrest, fieldErrors_of_ok hf]
      | error e =>
          simp [resolveFieldsGo, hf, resolveFieldsGo_some, fieldErrors_of_error hf]

theorem join_length_single :
    ∀ (fields : List RawField),
      (∀ f ∈ fields, (ResolvedField.new f).isOk = false → (fieldErrors f).length = 1) →
      ((fields.map fieldErrors).flatten).length =
        (fields.filter fun f => !(ResolvedField.new f).isOk).length := by
  intro fields
  induction fields with
  | nil => intro _; rfl
  | cons f rest ih =>
      intro h
      have hrest := ih fun g hg => h g (List.mem_cons_of_mem _ hg)
      cases hf : ResolvedField.new f with
      | ok r =>
          simp [List.filter, hf, Except.isOk, Except.toBool, fieldErrors_of_ok hf, hrest]
      | error e =>
          have h1 : (fieldErrors f).length = 1 := by
            refine h f (List.mem_cons_self _ _) ?_
            simp [hf, Except.isOk, Except.toBool]
          simp only [List.map_cons, List.flatten_cons, List.length_append, h1, hrest,
            List.filter_cons, hf, Except.isOk, Except.toBool, Bool.not_false, if_true,
            List.length_cons]
          omega

theorem resolveAttrs_stops_at_error :
    ∀ (pre : List Attr) (post : List Attr) (e : List Nat) (r : ResolvedField),
      (∀ a ∈ pre, attrOk a = true) →
      resolveAttrs (pre ++ .builder (.error e) :: post) r = .error e := by
  intro pre
  induction pre with
  | nil => intro post e r _; rfl
  | cons a pre ih =>
      intro post e r h
      have ha : attrOk a = true := h a (List.mem_cons_self _ _)
      have hrest : ∀ b ∈ pre, attrOk b = true := fun b hb => h b (List.mem_cons_of_mem _ hb)
      cases a with
      | other => simpa [resolveAttrs] using ih post e r hrest
      | builder p =>
          cases p with
          | ok l => simpa [resolveAttrs] using ih post e _ hrest
          | error d => simp [attrOk] at ha

theorem resolveAttrs_of_allOk :
    ∀ (attrs : List Attr) (r : ResolvedField),
      (∀ a ∈ attrs, attrOk a = true) →
      resolveAttrs attrs r = .ok ((allOverrides attrs).foldl applyOverride r) := by
  intro attrs
  induction attrs with
  | nil => intro r _; rfl
  | cons a attrs ih =>
      intro r h
      have ha : attrOk a = true := h a (List.mem_cons_self _ _)
      have hrest : ∀ b ∈ attrs, attrOk b = true := fun b hb => h b (List.mem_cons_of_mem _ hb)
      cases a with
      | other => simpa [resolveAttrs, allOverrides] using ih r hrest
      | builder p =>
          cases p with
          | ok l =>
              simp [resolveAttrs, allOverrides, List.foldl_append, ih _ hrest]
          | error d => simp [attrOk] at ha

theorem applyOverride_mode (r : ResolvedField) (o : FieldOverride) :
    (applyOverride r o).mode =
      if isModeOverride o = true then modeOfOverride o else r.mode := by
  cases o <;> rfl

theorem applyOverride_default (r : ResolvedField) (o : FieldOverride) :
    (applyOverride r o).default =
      match defaultEffect o with
      | some e => some e
      | none => r.default := by
  cases o <;> rfl

theorem mode_foldl_eq :
    ∀ (l : List FieldOverride) (r : ResolvedField),
      (l.foldl applyOverride r).mode =
        l.foldl (fun m o => if isModeOverride o = true then modeOfOverride o else m) r.mode := by
  intro l
  induction l with
  | nil => intro r; rfl
  | cons o l ih =>
      intro r
      simp only [List.foldl_cons, ih, applyOverride_mode]

theorem default_foldl_eq :
    ∀ (l : List FieldOverride) (r : ResolvedField),
      (l.foldl applyOverride r).default =
        l.foldl (fun d o => match defaultEffect o with
                            | some e => some e
                            | none => d) r.default := by
  intro l
  induction l with
  | nil => intro r; rfl
  | cons o l ih =>
      intro r
      simp only [List.foldl_cons, ih, applyOverride_default]

theorem foldl_mode_const :
    ∀ (l : List FieldOverride) (m : FieldMode),
      (∀ o ∈ l, isModeOverride o = false) →
      l.foldl (fun m o => if isModeOverride o = true then modeOfOverride o else m) m = m := by
  intro l
  induction l with
  | nil => intro m _; rfl
  | cons o l ih =>
      intro m h
      have ho := h o (List.mem_cons_self _ _)
      simp only [List.foldl_cons, ho, Bool.false_eq_true, if_false]
      exact ih m fun o2 h2 => h o2 (List.mem_cons_of_mem _ h2)

theorem foldl_default_const :
    ∀ (l : List FieldOverride) (d : Option Expr),
      (∀ o ∈ l, defaultEffect o = none) →
      l.foldl (fun d o => match defaultEffect o with
                          | some e => some e
                          | none => d) d = d := by
  intro l
  induction l with
  | nil => intro d _; rfl
  | cons o l ih =>
      intro d h
      have ho := h o (List.mem_cons_self _ _)
      simp only [List.foldl_cons, ho]
      exact ih d fun o2 h2 => h o2 (List.mem_cons_of_mem _ h2)

theorem foldl_default_isSome :
    ∀ (l : List FieldOverride) (d : Option Expr),
      d.isSome = true →
      (l.foldl (fun d o => match defaultEffect o with
                           | some e => some e
                           | none => d) d).isSome = true := by
  intro l
  induction l with
  | nil => intro d h; exact h
  | cons o l ih =>
      intro d h
      cases he : defaultEffect o with
      | some e => simp only [List.foldl_cons, he]; exact ih _ rfl
      | none => simp only [List.foldl_cons, he]; exact ih _ h

theorem foldl_push_setter {I B : Type} (c : I → B) :
    ∀ (xs : List I) (s : List B), xs.foldl (push_setter c) s = s ++ xs.map c := by
  intro xs
  induction xs with
  | nil => intro s; simp
  | cons x xs ih =>
      intro s
      simp [push_setter, ih]

theorem applyFinalOps_preserves {Val : Type} (fields : List (SField Val)) (j : Nat) :
    ∀ (ops : List (Nat × Val)) (s : BState Val),
      (∀ p ∈ ops, p.1 ≠ j) → applyFinalOps fields ops s j = s j := by
  intro ops
  induction ops with
  | nil => intro s _; rfl
  | cons p ops ih =>
      intro s h
      have hp : p.1 ≠ j := h p (List.mem_cons_self _ _)
      have : final_setter fields p.1 p.2 s j = s j := by
        unfold final_setter
        rw [if_neg]
        intro hj
        exact hp hj.symm
      calc applyFinalOps fields (p :: ops) s j
          = applyFinalOps fields ops (final_setter fields p.1 p.2 s) j := rfl
        _ = final_setter fields p.1 p.2 s j := ih _ fun q hq => h q (List.mem_cons_of_mem _ hq)
        _ = s j := this

/-!
Claim theorems.
-/

/-- Claim C1: for every resolved schema the generated builder has exactly
one stage per field whose resolved default is absent, the stages occur in
the fields' declaration order restricted to required fields, and the
stage generated for the k-th required field (at absolute declaration
index i) owns exactly the required fields declared strictly before it,
namely the first k required fields. -/
theorem stage_protocol_matches_required_fields (fields : List ResolvedField) :
    (stagesOf requiredField fields).length = (fields.filter requiredField).length ∧
    (stagesOf requiredField fields).map (fun p => p.2) = fields.filter requiredField ∧
    (∀ k i f, (stagesOf requiredField fields).get? k = some (i, f) →
      stage_struct_fields fields i = (fields.filter requiredField).take k) := by
  have hmap : ((fields.enumFrom 0).filter (fun p => requiredField p.2)).map (fun p => p.2) =
      fields.filter requiredField := map_snd_filter_enumFrom requiredField fields 0
  refine ⟨?_, hmap, ?_⟩
  · rw [← hmap, List.length_map]
    rfl
  · intro k i f h
    obtain ⟨m, hm, ht⟩ := get_filter_enumFrom_take requiredField fields 0 k i f h
    have hmi : m = i := by omega
    subst hmi
    exact ht

/-- Witness for C1 at a concrete mixed schema: the stage of the second
required field, which sits at absolute declaration index 2, owns
exactly the one required field declared before it. -/
theorem stage_protocol_matches_required_fields_witness :
    (stagesOf requiredField mixedResolved).get? 1 = some (2, mixedC) ∧
    stage_struct_fields mixedResolved 2 = (mixedResolved.filter requiredField).take 1 :=
  ⟨by decide, (stage_protocol_matches_required_fields mixedResolved).2.2 1 2 mixedC (by decide)⟩

/-- Claim C2: resolving a schema with malformed fields does not stop at
the first one: the single error result aggregates, in declaration order,
the diagnostics of every malformed field (fields after a malformed field
are still checked), and when each malformed field contributes exactly
one diagnostic the total count equals the number of malformed fields. -/
theorem resolve_fields_accumulates_errors (fields : List RawField) :
    ((fields.all fun f => (ResolvedField.new f).isOk) = false →
      resolve_fields fields = .error ((fields.map fieldErrors).flatten)) ∧
    ((∀ f ∈ fields, (ResolvedField.new f).isOk = false → (fieldErrors f).length = 1) →
      ((fields.map fieldErrors).flatten).length =
        (fields.filter fun f => !(ResolvedField.new f).isOk).length) :=
  ⟨fun h => resolveFieldsGo_none fields [] h, join_length_single fields⟩

/-- Witness for C2: a schema with three malformed fields yields one
aggregated error holding all three diagnostics. -/
theorem resolve_fields_accumulates_errors_witness :
    resolve_fields threeBadFields = .error [1, 2, 3] ∧
    ((threeBadFields.map fieldErrors).flatten).length = 3 :=
  ⟨((resolve_fields_accumulates_errors threeBadFields).1 (by decide)).trans (by rfl),
   ((resolve_fields_accumulates_errors threeBadFields).2 (by decide)).trans (by rfl)⟩

/-- Counterexample to claim C3: a schema whose fields combine mutually
exclusive setter modes (into together with custom, and list together
with set) resolves successfully instead of failing — the later mode
option silently wins. -/
theorem conflicting_modes_not_rejected :
    resolve_fields [exIntoCustom, exListSet] =
      .ok [⟨"f", none, .normal (.customT 1) (.customA 2)⟩,
           ⟨"g", some .defaultCall, .unaryCollection .set ⟨4, none⟩⟩] := rfl

/-- Claim C3 amended: combining several setter-mode options on one field
is not a resolution error; each mode option overwrites the previous
mode, so the last mode option in attribute order determines the field's
resolved setter mode. -/
theorem mode_conflicts_last_wins (f : RawField) (l1 : List FieldOverride)
    (o : FieldOverride) (l2 : List FieldOverride)
    (hok : ∀ a ∈ f.attrs, attrOk a = true)
    (hsplit : allOverrides f.attrs = l1 ++ o :: l2)
    (hmode : isModeOverride o = true)
    (hlast : ∀ o2 ∈ l2, isModeOverride o2 = false) :
    Except.map (fun r => r.mode) (ResolvedField.new f) = .ok (modeOfOverride o) := by
  have h1 := resolveAttrs_of_allOk f.attrs (initResolved f) hok
  have h2 : ((allOverrides f.attrs).foldl applyOverride (initResolved f)).mode =
      modeOfOverride o := by
    rw [hsplit, mode_foldl_eq, List.foldl_append]
    simp only [List.foldl_cons, hmode, if_true]
    exact foldl_mode_const l2 _ hlast
  have h1' : ResolvedField.new f =
      .ok ((allOverrides f.attrs).foldl applyOverride (initResolved f)) := h1
  rw [h1']
  simp [Except.map, h2]

/-- Witness for amended C3: on the into-then-custom field the resolved
mode is the custom mode. -/
theorem mode_conflicts_last_wins_witness :
    Except.map (fun r => r.mode) (ResolvedField.new exIntoCustom) =
      .ok (FieldMode.normal (.customT 1) (.customA 2)) :=
  mode_conflicts_last_wins exIntoCustom [.intoOv] (.custom 1 2) []
    (by decide) (by rfl) (by rfl) (by simp)

/-- Counterexample to claim C4: a list-mode field carrying an explicit
default expression after the list option resolves with that expression,
not with the empty collection, as its default. -/
theorem collection_default_overridden :
    ResolvedField.new exListDefault =
      .ok ⟨"h", some (.userExpr 7), .unaryCollection .list ⟨5, none⟩⟩ ∧
    some (Expr.userExpr 7) ≠ some Expr.defaultCall :=
  ⟨rfl, by decide⟩

/-- Claim C4 amended: a list, set or map option makes the field
defaultable, and the resolved default is determined by the last
default-affecting option in the field's option order: every
default-affecting option installs its initializer — the empty-collection
call for a collection option and for a bare default option, the
explicit expression for a default option with an expression — and the
last one installed is the resolved default. In particular an explicit
default expression after the last collection option overrides the
empty-collection default. -/
theorem collection_default_tracks_last_option (f : RawField)
    (hok : ∀ a ∈ f.attrs, attrOk a = true) :
    (∀ (l1 : List FieldOverride) (c : FieldOverride) (l2 : List FieldOverride),
      allOverrides f.attrs = l1 ++ c :: l2 → isCollectionOverride c = true →
      Except.map (fun r => r.default.isSome) (ResolvedField.new f) = .ok true) ∧
    (∀ (m1 : List FieldOverride) (o : FieldOverride) (m2 : List FieldOverride) (e : Expr),
      allOverrides f.attrs = m1 ++ o :: m2 → defaultEffect o = some e →
      (∀ o2 ∈ m2, defaultEffect o2 = none) →
      Except.map (fun r => r.default) (ResolvedField.new f) = .ok (some e)) := by
  have h1 := resolveAttrs_of_allOk f.attrs (initResolved f) hok
  have h1' : ResolvedField.new f =
      .ok ((allOverrides f.attrs).foldl applyOverride (initResolved f)) := h1
  constructor
  · intro l1 c l2 hsplit hcoll
    have hce : defaultEffect c = some Expr.defaultCall := by
      cases c <;> simp_all [isCollectionOverride, defaultEffect]
    have hdef : ((allOverrides f.attrs).foldl applyOverride (initResolved f)).default =
        l2.foldl (fun d o => match defaultEffect o with
                             | some e => some e
                             | none => d) (some Expr.defaultCall) := by
      rw [hsplit, default_foldl_eq, List.foldl_append]
      simp only [List.foldl_cons, hce]
    rw [h1']
    simp only [Except.map]
    rw [hdef]
    simp [foldl_default_isSome l2 (some Expr.defaultCall) rfl]
  · intro m1 o m2 e hsplit heff hnone
    have hdef : ((allOverrides f.attrs).foldl applyOverride (initResolved f)).default =
        m2.foldl (fun d o => match defaultEffect o with
                             | some e => some e
                             | none => d) (some e) := by
      rw [hsplit, default_foldl_eq, List.foldl_append]
      simp only [List.foldl_cons, heff]
    rw [h1']
    simp only [Except.map]
    rw [hdef]
    simp [foldl_default_const m2 _ hnone]

/-- Witness for amended C4, covering every shape of last
default-affecting option: a field with only a list option is
defaultable with the empty-collection default; a bare default option
after the list option still leaves the empty-collection default; an
explicit default expression after the list option overrides it. -/
theorem collection_default_tracks_last_option_witness :
    Except.map (fun r => r.default.isSome) (ResolvedField.new exListOnly) = .ok true ∧
    Except.map (fun r => r.default) (ResolvedField.new exListOnly) =
      .ok (some Expr.defaultCall) ∧
    Except.map (fun r => r.default) (ResolvedField.new exListBareDefault) =
      .ok (some Expr.defaultCall) ∧
    Except.map (fun r => r.default) (ResolvedField.new exListDefault) =
      .ok (some (Expr.userExpr 7)) := by
  refine ⟨?_, ?_, ?_, ?_⟩
  · exact (collection_default_tracks_last_option exListOnly (by decide)).1
      [] (.unaryCollection .list ⟨5, none⟩) [] (by rfl) (by rfl)
  · exact (collection_default_tracks_last_option exListOnly (by decide)).2
      [] (.unaryCollection .list ⟨5, none⟩) [] Expr.defaultCall (by rfl) (by rfl) (by simp)
  · exact (collection_default_tracks_last_option exListBareDefault (by decide)).2
      [.unaryCollection .list ⟨5, none⟩] (.default .defaultCall) [] Expr.defaultCall
      (by rfl) (by rfl) (by simp)
  · exact (collection_default_tracks_last_option exListDefault (by decide)).2
      [.unaryCollection .list ⟨5, none⟩] (.default (.userExpr 7)) [] (Expr.userExpr 7)
      (by rfl) (by rfl) (by simp)

/-- Claim C5: on the final stage the plural same-name setter of a
collection field overwrites the whole accumulated collection, so
calling it twice equals calling it once with the second argument — for
list-, set- and map-style fields alike; and N push/insert calls produce
the same collection as a single extend call with the same N items in
the same order. -/
theorem collection_setter_laws {I B KI K VI V : Type} [DecidableEq B] [DecidableEq K]
    (c : I → B) (ck : KI → K) (cv : VI → V)
    (s : List B) (m : List (K × V)) (xs ys : List I) (ps qs : List (KI × VI)) :
    name_setter_list c (name_setter_list c s xs) ys = name_setter_list c s ys ∧
    name_setter_set c (name_setter_set c s xs) ys = name_setter_set c s ys ∧
    name_setter_map ck cv (name_setter_map ck cv m ps) qs = name_setter_map ck cv m qs ∧
    xs.foldl (push_setter c) s = extend_setter_list c s xs ∧
    xs.foldl (insert_setter c) s = extend_setter_set c s xs ∧
    ps.foldl (insert_setter_map ck cv) m = extend_setter_map ck cv m ps := by
  refine ⟨rfl, rfl, rfl, foldl_push_setter c xs s, ?_, ?_⟩
  · rw [show extend_setter_set c s xs = (xs.map c).foldl hset_insert s from rfl,
      List.foldl_map]
    rfl
  · rw [show extend_setter_map ck cv m ps =
        (ps.map fun p => (ck p.1, cv p.2)).foldl (fun m q => hmap_insert m q.1 q.2) m from rfl,
      List.foldl_map]
    rfl

/-- Claim C6: with validate set, build first assembles the complete
value from the final stage's fields, invokes the external validation
contract exactly once on it (the traced build logs the single call, on
the assembled value, for any preceding run of final-stage setters),
returns the value on success and propagates the contract's error
verbatim on failure; without validate, build is the total assembly
function and cannot fail. The Validated scenario is included: even 0
builds successfully, even 1 propagates the "is odd" error. -/
theorem build_validates_once_after_assembly
    (Val E : Type) (fields : List (SField Val)) (validate : BState Val → Except E Unit)
    (s : BState Val) (ops : List (Nat × Val)) :
    (validated_build fields.length validate s =
      match validate (assembleValue fields.length s) with
      | .ok _ => .ok (assembleValue fields.length s)
      | .error e => .error e) ∧
    ((validated_build_traced fields.length validate (applyFinalOps fields ops s)).2 =
      [assembleValue fields.length (applyFinalOps fields ops s)]) ∧
    (unvalidated_build fields.length (applyFinalOps fields ops s) =
      assembleValue fields.length (applyFinalOps fields ops s)) ∧
    (validated_build evenFields.length validateEven
        (stage_setter evenFields 0 0 (builder_init evenFields)) =
      .ok (assembleValue evenFields.length
        (stage_setter evenFields 0 0 (builder_init evenFields)))) ∧
    (validated_build evenFields.length validateEven
        (stage_setter evenFields 0 1 (builder_init evenFields)) =
      .error "is odd") :=
  ⟨rfl, rfl, rfl, rfl, rfl⟩

/-- Claim C7: the setter of the last required stage transitions to the
final stage and installs every defaultable field's default in that same
transition, so a defaultable field left untouched by any later
final-stage setter calls still holds its default in the built value. -/
theorem last_stage_materializes_defaults
    (Val : Type) (fields : List (SField Val)) (idx : Nat) (x : Val) (s : BState Val)
    (j : Nat) (f : SField Val) (d : Val) (ops : List (Nat × Val))
    (hreq : isRequiredAt fields idx = true)
    (hlast : nextRequiredAfter fields idx = none)
    (hj : fields.get? j = some f)
    (hd : f.default = some d)
    (hops : ∀ p ∈ ops, p.1 ≠ j) :
    stage_setter fields idx x s j = some d ∧
    unvalidated_build fields.length
      (applyFinalOps fields ops (stage_setter fields idx x s)) j = some d := by
  have hne : j ≠ idx := by
    intro h
    subst h
    rw [isRequiredAt, hj] at hreq
    have hreq2 : f.default.isNone = true := hreq
    rw [hd] at hreq2
    simp at hreq2
  have hnotreq : isRequiredAt fields j = false := by
    rw [isRequiredAt, hj]
    show f.default.isNone = false
    rw [hd]
    rfl
  have hcond : ¬ (j < idx ∧ isRequiredAt fields j = true) := by
    intro hcon
    rw [hnotreq] at hcon
    exact Bool.false_ne_true hcon.2
  have h1 : stage_setter fields idx x s j = some d := by
    show (if j = idx then some (convAt fields idx x)
          else if j < idx ∧ isRequiredAt fields j = true then s j
          else match nextRequiredAfter fields idx with
               | some _ => none
               | none => defaultAt fields j) = some d
    rw [if_neg hne, if_neg hcond, hlast]
    show defaultAt fields j = some d
    rw [defaultAt, hj]
    exact hd
  have h2 : applyFinalOps fields ops (stage_setter fields idx x s) j = some d :=
    (applyFinalOps_preserves fields j ops _ hops).trans h1
  refine ⟨h1, ?_⟩
  obtain ⟨hlt, -⟩ := List.get?_eq_some.mp hj
  show (if j < fields.length
        then applyFinalOps fields ops (stage_setter fields idx x s) j
        else none) = some d
  rw [if_pos hlt]
  exact h2

/-- Witness for C7 at the Foo scenario: after required(true) and
required2(a), the final-stage struct already holds the defaults of
normal_default and custom_default, and the built record is
required true, required2 a, normal_default empty, custom_default 42. -/
theorem last_stage_materializes_defaults_witness :
    stage_setter fooFields 1 (FooVal.s "a")
      (stage_setter fooFields 0 (FooVal.b true) (builder_init fooFields)) 2 =
        some (FooVal.s "") ∧
    fooBuilt 2 = some (FooVal.s "") ∧
    fooBuilt 3 = some (FooVal.i 42) ∧
    fooBuilt 0 = some (FooVal.b true) ∧
    fooBuilt 1 = some (FooVal.s "a") := by
  refine ⟨?_, ?_, ?_, rfl, rfl⟩
  · exact (last_stage_materializes_defaults FooVal fooFields 1 (.s "a")
      (stage_setter fooFields 0 (FooVal.b true) (builder_init fooFields)) 2
      ⟨some (.s ""), id⟩ (.s "") [] rfl rfl rfl rfl (by simp)).1
  · exact (last_stage_materializes_defaults FooVal fooFields 1 (.s "a")
      (stage_setter fooFields 0 (FooVal.b true) (builder_init fooFields)) 2
      ⟨some (.s ""), id⟩ (.s "") [] rfl rfl rfl rfl (by simp)).2
  · exact (last_stage_materializes_defaults FooVal fooFields 1 (.s "a")
      (stage_setter fooFields 0 (FooVal.b true) (builder_init fooFields)) 3
      ⟨some (.i 42), id⟩ (.i 42) [] rfl rfl rfl rfl (by simp)).2

/-- Claim C8: when every field of the schema is defaultable, the builder
entry point is the final stage itself with every field already holding
its default, and the builder has exactly one state (zero required
stages plus the final stage). -/
theorem zero_required_builds_final_directly (Val : Type) (fields : List (SField Val))
    (hall : ∀ f ∈ fields, f.default.isSome = true) :
    (∀ j, builder_init fields j = defaultAt fields j) ∧
    (stagesOf (fun f : SField Val => f.default.isNone) fields).length + 1 = 1 := by
  have hfind : fields.find? (fun f => f.default.isNone) = none := by
    refine List.find?_eq_none.mpr fun f hf hp => ?_
    have h2 := hall f hf
    rw [Option.isNone_iff_eq_none] at hp
    rw [hp] at h2
    simp at h2
  constructor
  · have hb : builder_init fields = fun j => defaultAt fields j := by
      unfold builder_init
      rw [hfind]
    intro j
    rw [hb]
  · have hnil : (fields.enumFrom 0).filter (fun p => p.2.default.isNone) = [] := by
      refine List.filter_eq_nil_iff.mpr fun p hp hcon => ?_
      have hmem := snd_mem_of_mem_enumFrom fields 0 hp
      have h2 := hall p.2 hmem
      rw [Option.isNone_iff_eq_none] at hcon
      rw [hcon] at h2
      simp at h2
    show ((fields.enumFrom 0).filter fun p => p.2.default.isNone).length + 1 = 1
    rw [hnil]
    rfl

/-- Witness for C8: a one-field all-defaultable schema starts at the
final stage holding the default and has exactly one state. -/
theorem zero_required_builds_final_directly_witness :
    builder_init [(⟨some 1, id⟩ : SField Nat)] 0 = some 1 ∧
    (stagesOf (fun f : SField Nat => f.default.isNone) [⟨some 1, id⟩]).length + 1 = 1 := by
  have h := zero_required_builds_final_directly Nat [⟨some 1, id⟩] (by simp)
  exact ⟨(h.1 0).trans rfl, h.2⟩

/-- Claim C9 (modelled from the spec: the update option's generated
conversion is exercised by the tests but absent from these sources):
converting a built value back into the final stage and rebuilding after
overriding one field yields the original value with only that field
changed. -/
theorem update_edit_rebuild (Val : Type) (fields : List (SField Val)) (v : BState Val)
    (j : Nat) (x : Val) (k : Nat) (hj : j < fields.length) :
    unvalidated_build fields.length (final_setter fields j x (builder_from fields v)) k =
      if k = j then some (convAt fields j x)
      else if k < fields.length then v k else none := by
  by_cases hkj : k = j
  · subst hkj
    simp [unvalidated_build, assembleValue, final_setter, builder_from, hj]
  · by_cases hk : k < fields.length
    · simp [unvalidated_build, assembleValue, final_setter, builder_from, hkj, hk]
    · simp [unvalidated_build, assembleValue, final_setter, builder_from, hkj, hk]

/-- Witness for C9 at the Update scenario: rebuilding after overriding
field a keeps field b of the original value. -/
theorem update_edit_rebuild_witness :
    unvalidated_build updFields.length
      (final_setter updFields 0 (UpdVal.i 2) (builder_from updFields updOriginal)) 0 =
        some (UpdVal.i 2) ∧
    unvalidated_build updFields.length
      (final_setter updFields 0 (UpdVal.i 2) (builder_from updFields updOriginal)) 1 =
        some (UpdVal.s "hello") :=
  ⟨(update_edit_rebuild UpdVal updFields updOriginal 0 (UpdVal.i 2) 0 (by decide)).trans
      (by rfl),
   (update_edit_rebuild UpdVal updFields updOriginal 0 (UpdVal.i 2) 1 (by decide)).trans
      (by rfl)⟩

/-- Claim C10: error aggregation has limited granularity: a struct-level
option error aborts expansion before any field is resolved, so the
result carries exactly the struct-level diagnostics and no field
diagnostics; and within one field resolution stops at the field's first
malformed attribute, so at most that one attribute's diagnostics are
reported for the field. -/
theorem error_granularity_limits :
    (∀ (attrs : List SAttr) (fields : List RawField) (e : List Nat),
      StructOverrides.new attrs = .error e → expand attrs fields = .error e) ∧
    (∀ (name : String) (pre : List Attr) (e : List Nat) (post : List Attr),
      (∀ a ∈ pre, attrOk a = true) →
      ResolvedField.new ⟨name, pre ++ .builder (.error e) :: post⟩ = .error e) := by
  constructor
  · intro attrs fields e h
    unfold expand
    rw [h]
  · intro name pre e post h
    exact resolveAttrs_stops_at_error pre post e _ h

/-- Witness for C10: a bad struct option hides all field diagnostics,
and a field reports only its first malformed attribute's diagnostic. -/
theorem error_granularity_limits_witness :
    expand [SAttr.builder (.error [9])] threeBadFields = .error [9] ∧
    ResolvedField.new ⟨"k", [Attr.other, .builder (.ok [.intoOv]),
      .builder (.error [5]), .builder (.error [6])]⟩ = .error [5] :=
  ⟨error_granularity_limits.1 [SAttr.builder (.error [9])] threeBadFields [9] rfl,
   error_granularity_limits.2 "k" [Attr.other, .builder (.ok [.intoOv])] [5]
     [.builder (.error [6])] (by decide)⟩

end StagedBuilder
